import Mathlib

/-!
Verification of the JSON document-cursor subsystem of a prolly-tree storage layer,
and of the table-hash diffing helper.

The file embeds, as executable Lean definitions:
* `getPreviousKey`, `newJsonCursor`-adjacent operations, `JsonCursor.NextValue`,
  `JsonCursor.AdvanceToLocation` and `JsonCursor.AdvanceToNextLocation`, translated
  statement-by-statement from `go/store/prolly/tree/json_cursor.go`;
* the collaborators that file calls but that are not part of the excerpt
  (the tree `cursor` with clone/retreat/advance, the `JsonScanner`, and
  `compareJsonLocations`); those are modelled from the specification and each
  carries a doc comment starting `Modelled from the spec:`;
* `mapTableHashes` translated from the merge-state source file.

Go mutation through pointers is rendered as explicit state passing; Go `error`
returns become an `error` constructor; a Go `panic` (process abort) becomes a
distinct `panicked` constructor, so that aborting and returning an error are
distinguishable outcomes.
-/

namespace DoltTree

/-- Outcome of a Go function call: a normal return, a returned `error`, or a
process-aborting `panic`. -/
inductive GoErr : Type where
  | eof : GoErr
  | outOfFuel : GoErr
  | msg : String → GoErr
deriving DecidableEq, Repr

/-- Result of a Go computation, separating returned errors from panics (aborts). -/
inductive GoOutcome (α : Type) : Type where
  | ok : α → GoOutcome α
  | error : GoErr → GoOutcome α
  | panicked : String → GoOutcome α
deriving DecidableEq, Repr

/-- Modelled from the spec: one step of a path through a JSON document — an
object field or an array index (§3 JsonLocation). -/
inductive JsonPathElement : Type where
  | objectKey : String → JsonPathElement
  | arrayIndex : Nat → JsonPathElement
deriving DecidableEq, Repr

/-- Modelled from the spec: whether a scan position sits at the opening byte of a
value or just past its closing byte.  The spec's ordering must be consistent with
document byte order (§3) while a location whose path is a strict ancestor sorts
before its descendants (§4.2, §8); the position *after* a value therefore needs a
marker that sorts after all of the value's content. -/
inductive ScannerState : Type where
  | startOfValue : ScannerState
  | endOfValue : ScannerState
deriving DecidableEq, Repr

/-- Modelled from the spec: a JsonLocation — a path through the document plus a
byte offset into the serialized value at that path (§3). -/
structure JsonLocation : Type where
  path : List JsonPathElement
  state : ScannerState
  offset : Nat
deriving DecidableEq, Repr

def compareStrings (a b : String) : Int :=
  if a < b then -1 else if b < a then 1 else 0

def compareNats (a b : Nat) : Int :=
  if a < b then -1 else if b < a then 1 else 0

/-- Modelled from the spec: path elements compare by field name or numerically by
array index (§4.2).  Valid documents never mix the two kinds at one level; the
model puts array indices first. -/
def compareJsonPathElements : JsonPathElement → JsonPathElement → Int
  | .arrayIndex i, .arrayIndex j => compareNats i j
  | .objectKey a, .objectKey b => compareStrings a b
  | .arrayIndex _, .objectKey _ => -1
  | .objectKey _, .arrayIndex _ => 1

def compareLocAux :
    List JsonPathElement → ScannerState → Nat →
    List JsonPathElement → ScannerState → Nat → Int
  | [], sa, oa, [], sb, ob =>
    if sa = sb then compareNats oa ob
    else if sa = .startOfValue then -1 else 1
  | [], sa, _, _ :: _, _, _ => if sa = .startOfValue then -1 else 1
  | _ :: _, _, _, [], sb, _ => if sb = .startOfValue then 1 else -1
  | x :: xs, sa, oa, y :: ys, sb, ob =>
    let c := compareJsonPathElements x y
    if c = 0 then compareLocAux xs sa oa ys sb ob else c

/-- Modelled from the spec: `compareJsonLocations` compares paths element by
element; a location at the start of a value whose path is a strict ancestor of
another location's path sorts before it, regardless of byte offsets (§4.2, §8),
and the end of a value sorts after everything inside the value so that the order
agrees with document byte order (§3); equal paths and states compare by byte
offset. -/
def compareJsonLocations (a b : JsonLocation) : Int :=
  compareLocAux a.path a.state a.offset b.path b.state b.offset

/-- Modelled from the spec: a leaf chunk — the raw bytes of one slice of the
serialized document (bytes as natural numbers), together with the scan steps the
Document Scanner takes inside this slice.  Each step records the location reached
and the scan byte offset (local to this chunk) after the step; the spec treats
the tokenizer behaviorally ("tracks the logical path at every byte", §4.3), so the
model carries the chunk's token steps alongside its bytes. -/
structure Chunk : Type where
  bytes : List Nat
  steps : List (JsonLocation × Nat)
deriving DecidableEq, Repr

/-- Modelled from the spec: the Document Scanner state over one chunk — the
buffer, the remaining token steps, the current JsonLocation, and the scan byte
offset (§4.3, §3 JsonScanner). -/
structure JsonScanner : Type where
  jsonBuffer : List Nat
  steps : List (JsonLocation × Nat)
  currentPath : JsonLocation
  valueOffset : Nat
deriving DecidableEq, Repr

/-- The location of the true start of the document: empty path, start of value,
offset 0. -/
def documentStart : JsonLocation := ⟨[], .startOfValue, 0⟩

/-- Modelled from the spec: `ScanJsonFromMiddleWithKey` builds a scanner whose
initial path is derived from the predecessor key (`none`, i.e. Go `nil`, means
true document start) and whose byte offset starts at 0 of the given buffer
(§4.3). -/
def ScanJsonFromMiddleWithKey (ch : Chunk) (previousKey : Option JsonLocation) :
    JsonScanner :=
  { jsonBuffer := ch.bytes, steps := ch.steps,
    currentPath := previousKey.getD documentStart, valueOffset := 0 }

/-- Modelled from the spec: `ScanJsonFromMiddle` builds a scanner over a fresh
buffer that inherits the path state left over by the previous chunk's end (§2,
§4.3). -/
def ScanJsonFromMiddle (ch : Chunk) (path : JsonLocation) : JsonScanner :=
  { jsonBuffer := ch.bytes, steps := ch.steps, currentPath := path,
    valueOffset := 0 }

/-- Modelled from the spec: `AdvanceToNextLocation` moves the scan position
forward by one token-level step, updating the current path and scan offset;
`none` models the `io.EOF` signal at the end of the chunk's buffer (§4.3). -/
def JsonScanner.AdvanceToNextLocation (s : JsonScanner) : Option JsonScanner :=
  match s.steps with
  | [] => none
  | (loc, off) :: rest =>
    some { s with steps := rest, currentPath := loc, valueOffset := off }

/-- Modelled from the spec: `atStartOfValue` is true iff the scan position sits
exactly at the first byte of a value (§4.3). -/
def JsonScanner.atStartOfValue (s : JsonScanner) : Bool :=
  match s.currentPath.state with
  | .startOfValue => true
  | .endOfValue => false

/-- Modelled from the spec: a Node is an immutable block of ordered entries;
leaf entries hold chunk payloads, internal entries hold child nodes (§3).
Content addressing is modelled by letting an internal entry's value be the child
node itself: two nodes with identical contents are the same Lean value. -/
inductive Node : Type where
  | leaf : List (JsonLocation × Chunk) → Node
  | internal : List (JsonLocation × Node) → Node

def Node.count : Node → Nat
  | .leaf es => es.length
  | .internal es => es.length

def Node.keys : Node → List JsonLocation
  | .leaf es => es.map Prod.fst
  | .internal es => es.map Prod.fst

def Node.keyAt (nd : Node) (i : Int) : Option JsonLocation :=
  if 0 ≤ i then nd.keys.get? i.toNat else none

def Node.childAt : Node → Int → Option Node
  | .leaf _, _ => none
  | .internal es, i => if 0 ≤ i then (es.get? i.toNat).map Prod.snd else none

def Node.valueAt : Node → Int → Option Chunk
  | .leaf es, i => if 0 ≤ i then (es.get? i.toNat).map Prod.snd else none
  | .internal _, _ => none

/-- Modelled from the spec: a tree cursor — a node, an entry index, and an
optional parent cursor one level up, forming a chain to the root (§3, §4.1).
The index is an integer so that the invalid-before-start state (index −1) and
the invalid-after-end state (index = entry count) are representable. -/
inductive Cursor : Type where
  | mk : Node → Int → Option Cursor → Cursor

def Cursor.nd : Cursor → Node
  | .mk n _ _ => n

def Cursor.idx : Cursor → Int
  | .mk _ i _ => i

def Cursor.parent : Cursor → Option Cursor
  | .mk _ _ p => p

/-- Modelled from the spec: a cursor is valid iff its index lies within the
current node's entry count (§3). -/
def Cursor.Valid (c : Cursor) : Bool :=
  decide (0 ≤ c.idx ∧ c.idx < (c.nd.count : Int))

def Cursor.CurrentKey (c : Cursor) : Option JsonLocation :=
  c.nd.keyAt c.idx

def Cursor.currentRef (c : Cursor) : Option Node :=
  c.nd.childAt c.idx

def Cursor.currentValue (c : Cursor) : Option Chunk :=
  c.nd.valueAt c.idx

/-- Modelled from the spec: `clone` deep-copies the position — node reference,
index, and recursively cloned parent chain — while the underlying node contents
are shared, not copied (§4.1). -/
def Cursor.clone : Cursor → Cursor
  | .mk nd idx none => .mk nd idx none
  | .mk nd idx (some p) => .mk nd idx (some p.clone)

/-- Modelled from the spec: `retreat` is the symmetric predecessor operation —
step back within the node, or recursively retreat the parent and descend into
the new sibling's last entry; at the global first entry the cursor enters the
invalid-before-start state (§4.1). -/
def Cursor.retreat : Cursor → Cursor
  | .mk nd idx none =>
    if idx > 0 then .mk nd (idx - 1) none else .mk nd (-1) none
  | .mk nd idx (some p) =>
    if idx > 0 then .mk nd (idx - 1) (some p)
    else if idx = 0 then
      if p.retreat.Valid then
        match p.retreat.currentRef with
        | some child => .mk child ((child.count : Int) - 1) (some p.retreat)
        | none => .mk nd (-1) (some p.retreat)
      else .mk nd (-1) (some p.retreat)
    else .mk nd (-1) (some p)

/-- Modelled from the spec: `advance` moves to the next entry in the current
node; if the node is exhausted it recursively advances the parent and descends
into the new sibling's first entry, propagating the end-of-tree (invalid) state
if the parent is also exhausted (§4.1). -/
def Cursor.advance : Cursor → Cursor
  | .mk nd idx none =>
    if idx + 1 < (nd.count : Int) then .mk nd (idx + 1) none
    else .mk nd (nd.count : Int) none
  | .mk nd idx (some p) =>
    if idx + 1 < (nd.count : Int) then .mk nd (idx + 1) (some p)
    else
      if p.advance.Valid then
        match p.advance.currentRef with
        | some child => .mk child 0 (some p.advance)
        | none => .mk nd (nd.count : Int) (some p.advance)
      else .mk nd (nd.count : Int) (some p.advance)

def firstGEAux : List JsonLocation → JsonLocation → Nat → Nat
  | [], _, i => i
  | k :: ks, key, i =>
    if compareJsonLocations k key < 0 then firstGEAux ks key (i + 1) else i

/-- Index of the first entry whose key is not less than `key`; the entry count
when every key is less (the invalid-after-end position, §4.1). -/
def Node.firstGE (nd : Node) (key : JsonLocation) : Int :=
  (firstGEAux nd.keys key 0 : Int)

/-- Modelled from the spec: `Seek` repositions an existing cursor to the first
entry with key ≥ the given key (§6); if the key lies beyond this node's last key
and a parent exists, the parent is repositioned first and the matching child
entered, mirroring how internal levels are repositioned when crossing leaf
boundaries (§4.1, §6). -/
def Cursor.seek : Cursor → JsonLocation → Cursor
  | .mk nd _ none, key => .mk nd (nd.firstGE key) none
  | .mk nd _ (some p), key =>
    let within :=
      match nd.keys.getLast? with
      | some kl => decide (compareJsonLocations key kl ≤ 0)
      | none => false
    if within then .mk nd (nd.firstGE key) (some p)
    else
      if (p.seek key).Valid then
        match (p.seek key).currentRef with
        | some child => .mk child (child.firstGE key) (some (p.seek key))
        | none => .mk nd (nd.count : Int) (some (p.seek key))
      else .mk nd (nd.count : Int) (some (p.seek key))

/-- Translated from `json_cursor.go`: `JsonCursor` wraps a tree cursor to the
stored document together with a `JsonScanner` over the current leaf's bytes. -/
structure JsonCursor : Type where
  cur : Cursor
  jsonScanner : JsonScanner

def JsonCursor.Valid (j : JsonCursor) : Bool :=
  j.cur.Valid

def JsonCursor.GetCurrentPath (j : JsonCursor) : JsonLocation :=
  j.jsonScanner.currentPath

/-- Translated from `json_cursor.go` (`getPreviousKey`), with the primary
cursor's post-state made explicit: the Go function mutates cursors through
pointers, so the translation returns the outcome together with the primary
cursor as the call leaves it.  The body clones the cursor, retreats the clone,
and — if the clone is still valid — reads `cur2.parent.CurrentKey()`.  A `nil`
parent there is a nil-pointer dereference in Go, rendered as `panicked`; reading
the current key of a cursor whose index is out of range is likewise an
index-out-of-range panic. -/
def getPreviousKeyS (cur : Cursor) : GoOutcome (Option JsonLocation) × Cursor :=
  let cur2 := cur.clone.retreat
  (if cur2.Valid then
    match cur2.parent with
    | none =>
      .panicked "runtime error: invalid memory address or nil pointer dereference"
    | some p =>
      match p.CurrentKey with
      | none => .panicked "runtime error: index out of range"
      | some k => .ok (some k)
  else .ok none, cur)

/-- Translated from `json_cursor.go`: `getPreviousKey` computes the key of a
cursor's predecessor, returning Go `nil` (here `none`) when the retreated clone
is no longer valid. -/
def getPreviousKey (cur : Cursor) : GoOutcome (Option JsonLocation) :=
  (getPreviousKeyS cur).1

/-- Translated from `json_cursor.go` (`AdvanceToNextLocation`), with the Go
`for` loop unrolled on fuel and the named return `crossedBoundary` threaded as
an accumulator.  On scanner exhaustion (`io.EOF`) the tree cursor is advanced;
if the advanced cursor is no longer valid the end of the tree is surfaced as
`(crossedBoundary, io.EOF)`; otherwise a scanner is rebuilt over the new leaf's
bytes with `ScanJsonFromMiddle` and the loop continues. -/
def advanceToNextLocationAux :
    Nat → JsonCursor → Bool → Bool × GoOutcome JsonCursor
  | 0, _, crossed => (crossed, .error .outOfFuel)
  | fuel + 1, j, crossed =>
    match j.jsonScanner.AdvanceToNextLocation with
    | some s2 => (crossed, .ok ⟨j.cur, s2⟩)
    | none =>
      if j.cur.advance.Valid then
        match j.cur.advance.currentValue with
        | none => (true, .panicked "runtime error: index out of range")
        | some ch =>
          advanceToNextLocationAux fuel
            ⟨j.cur.advance, ScanJsonFromMiddle ch j.jsonScanner.currentPath⟩ true
      else (true, .error .eof)

def JsonCursor.AdvanceToNextLocation (fuel : Nat) (j : JsonCursor) :
    Bool × GoOutcome JsonCursor :=
  advanceToNextLocationAux fuel j false

/-- Translated from `json_cursor.go` (the body of `NextValue` after its
precondition check): one `parseChunk()` call followed by the
`for compareJsonLocations(currentPath, path) < 0` loop, then the final
`jsonBuffer[startPos:valueOffset]` append.  `parseChunk` advances one location;
when a chunk boundary was crossed, the bytes read so far from the old buffer are
appended to the accumulator and the fresh buffer contributes from offset 0. -/
def nextValueLoop :
    Nat → JsonCursor → JsonLocation → List Nat → Nat → List Nat →
    GoOutcome (List Nat)
  | 0, _, _, _, _, _ => .error .outOfFuel
  | fuel + 1, j, path, buffer, startPos, acc =>
    match JsonCursor.AdvanceToNextLocation (fuel + 1) j with
    | (_, .error e) => .error e
    | (_, .panicked m) => .panicked m
    | (crossed, .ok j2) =>
      let buffer2 := if crossed then j2.jsonScanner.jsonBuffer else buffer
      let startPos2 := if crossed then 0 else startPos
      let acc2 := if crossed then acc ++ buffer.drop startPos else acc
      if compareJsonLocations j2.jsonScanner.currentPath path < 0 then
        nextValueLoop fuel j2 path buffer2 startPos2 acc2
      else
        .ok (acc2 ++ (buffer2.take j2.jsonScanner.valueOffset).drop startPos2)

/-- Translated from `json_cursor.go`: `NextValue` checks `atStartOfValue`,
captures `path := j.jsonScanner.currentPath`, `jsonBuffer` and
`startPos := valueOffset`, then runs `parseChunk` / the comparison loop. -/
def JsonCursor.NextValue (fuel : Nat) (j : JsonCursor) : GoOutcome (List Nat) :=
  if j.jsonScanner.atStartOfValue then
    nextValueLoop fuel j j.jsonScanner.currentPath j.jsonScanner.jsonBuffer
      j.jsonScanner.valueOffset []
  else .error (.msg "JSON cursor in unexpected state. This is likely a bug")

/-- Translated from `json_cursor.go` (`AdvanceToLocation`), the Go loop
unrolled on fuel.  While the scanner's current path is less than the target the
scanner advances; on `io.EOF` the parent tree cursor is re-sought to the
target's key with `Seek`, the referenced child is fetched and installed as the
cursor's node (the entry index is left as it was, exactly as in the source),
the predecessor key is recomputed, and the scanner is rebuilt with
`ScanJsonFromMiddleWithKey`.  A `nil` parent cursor passed to `Seek`
dereferences nil in Go and is rendered as `panicked`. -/
def JsonCursor.AdvanceToLocation :
    Nat → JsonCursor → JsonLocation → GoOutcome JsonCursor
  | 0, _, _ => .error .outOfFuel
  | fuel + 1, j, path =>
    if compareJsonLocations j.jsonScanner.currentPath path < 0 then
      match j.jsonScanner.AdvanceToNextLocation with
      | some s2 => JsonCursor.AdvanceToLocation fuel ⟨j.cur, s2⟩ path
      | none =>
        match j.cur.parent with
        | none =>
          .panicked "runtime error: invalid memory address or nil pointer dereference"
        | some p =>
          match (p.seek path).currentRef with
          | none => .panicked "runtime error: index out of range"
          | some child =>
            match getPreviousKey (Cursor.mk child j.cur.idx (some (p.seek path))) with
            | .panicked m => .panicked m
            | .error e => .error e
            | .ok previousKey =>
              match (Cursor.mk child j.cur.idx (some (p.seek path))).currentValue with
              | none => .panicked "runtime error: index out of range"
              | some ch =>
                JsonCursor.AdvanceToLocation fuel
                  ⟨Cursor.mk child j.cur.idx (some (p.seek path)),
                   ScanJsonFromMiddleWithKey ch previousKey⟩ path
    else .ok j

/-- Modelled from the spec: scanning the unsplit document in a single pass
(§8 round-trip extraction).  The scan advances from the start of the value until
the value and everything nested in it has been consumed — that is, until the
current location is no longer before the value's end location — and returns the
byte range from the value's first byte to the scan offset reached.  `none`
models running out of input before the value ends. -/
def specScanLoop :
    Nat → JsonScanner → JsonLocation → Nat → Option (List Nat)
  | 0, _, _, _ => none
  | fuel + 1, s, stop, startPos =>
    if compareJsonLocations s.currentPath stop < 0 then
      match s.AdvanceToNextLocation with
      | none => none
      | some s2 => specScanLoop fuel s2 stop startPos
    else some ((s.jsonBuffer.take s.valueOffset).drop startPos)

/-- Modelled from the spec: one-pass extraction of the entire value at the
scanner's current position from an unsplit document (§8): the value's bytes run
from the current scan offset to the scan offset at the value's end location. -/
def specNextValueOnePass (fuel : Nat) (s : JsonScanner) : Option (List Nat) :=
  specScanLoop fuel s ⟨s.currentPath.path, .endOfValue, 0⟩ s.valueOffset

/-- Translated from the merge-state source file: the abstract interface of a
`RootValue` that `mapTableHashes` consumes — `GetTableNames` and
`GetTableHash`, where `GetTableHash` returns `(hash, ok, err)`; `ok = false` is
modelled as `Except.ok none`. -/
structure RootValue : Type where
  GetTableNames : Except String (List String)
  GetTableHash : String → Except String (Option Nat)

/-- Translated from the merge-state source file: the loop body of
`mapTableHashes` over the table names.  A name for which `GetTableHash` reports
the table absent hits the source's `panic(...)` — a process abort, rendered as
`panicked` — and an error from `GetTableHash` is returned to the caller. -/
def mapTableHashesLoop :
    List String → (String → Except String (Option Nat)) →
    List (String × Nat) → GoOutcome (List (String × Nat))
  | [], _, acc => .ok acc
  | name :: rest, f, acc =>
    match f name with
    | .error e => .error (.msg e)
    | .ok none =>
      .panicked "GetTableNames returned a table that GetTableHash says isn't there."
    | .ok (some h) => mapTableHashesLoop rest f (acc ++ [(name, h)])

/-- Translated from the merge-state source file: `mapTableHashes` asks the root
for its table names and maps each name to its hash. -/
def mapTableHashes (root : RootValue) : GoOutcome (List (String × Nat)) :=
  match root.GetTableNames with
  | .error e => .error (.msg e)
  | .ok names => mapTableHashesLoop names root.GetTableHash []

/-- True iff the outcome is a process abort. -/
def GoOutcome.isPanicked {α : Type} : GoOutcome α → Bool
  | .panicked _ => true
  | _ => false

/-- The key recorded in a parent entry for a leaf: the largest key in the leaf,
matching the search convention of §4.1 (descend into the first entry whose key
is ≥ the target). -/
def lastKeyD (es : List (JsonLocation × Chunk)) : JsonLocation :=
  ((es.getLast?).map Prod.fst).getD documentStart

/-- A two-level tree: an internal root over the given leaves, each parent entry
keyed by the largest key of its leaf. -/
def twoLevelRoot (leaves : List (List (JsonLocation × Chunk))) : Node :=
  .internal (leaves.map fun es => (lastKeyD es, Node.leaf es))

/-- A cursor at the first entry of leaf `p` of a two-level tree, its parent
cursor at entry `p` of the root. -/
def twoLevelCursor (leaves : List (List (JsonLocation × Chunk))) (p : Nat) :
    Cursor :=
  .mk (Node.leaf (leaves.getD p [])) 0
    (some (.mk (twoLevelRoot leaves) (p : Int) none))

/- Concrete documents used to settle the claims.  The document
`{"a":1,"b":2}` is serialized as the bytes below; the scanner steps record the
locations a spec-faithful tokenizer passes through: entering field `a` (scan
offset 5, the first byte of `1`), entering field `b` (scan offset 11), and the
end of the root value (scan offset 13). -/

def docBytes : List Nat := [123, 34, 97, 34, 58, 49, 44, 34, 98, 34, 58, 50, 125]

def locA : JsonLocation := ⟨[.objectKey "a"], .startOfValue, 0⟩

def locB : JsonLocation := ⟨[.objectKey "b"], .startOfValue, 0⟩

def locEnd : JsonLocation := ⟨[], .endOfValue, 0⟩

def chunkFull : Chunk := ⟨docBytes, [(locA, 5), (locB, 11), (locEnd, 13)]⟩

/-- The document `{"a":1,"b":2}` stored unsplit in a single leaf, with a
`JsonCursor` at the start of the root value. -/
def j1 : JsonCursor :=
  ⟨Cursor.mk (Node.leaf [(locEnd, chunkFull)]) 0 none,
   ScanJsonFromMiddleWithKey chunkFull none⟩

/- The same document split into two chunks at byte offset 3 (mid-object, inside
the serialized name of field `a`): `(123 34 97 | 34 58 49 44 34 98 34 58 50 125)`.
The steps of the second chunk carry chunk-local scan offsets. -/

def chunkA : Chunk := ⟨[123, 34, 97], []⟩

def chunkB : Chunk :=
  ⟨[34, 58, 49, 44, 34, 98, 34, 58, 50, 125], [(locA, 2), (locB, 8), (locEnd, 10)]⟩

def keyA : JsonLocation := ⟨[.objectKey "a"], .startOfValue, 2⟩

def splitRoot : Node :=
  Node.internal [(keyA, Node.leaf [(keyA, chunkA)]), (locEnd, Node.leaf [(locEnd, chunkB)])]

/-- The split document, with a `JsonCursor` at the start of the root value in
the first chunk. -/
def j2 : JsonCursor :=
  ⟨Cursor.mk (Node.leaf [(keyA, chunkA)]) 0 (some (Cursor.mk splitRoot 0 none)),
   ScanJsonFromMiddleWithKey chunkA none⟩

/- The document `[1,2]`, unsplit: steps enter element 0 (scan offset 1),
element 1 (scan offset 3), and the end of the root value (scan offset 5). -/

def arrBytes : List Nat := [91, 49, 44, 50, 93]

def chunkArr : Chunk :=
  ⟨arrBytes, [(⟨[.arrayIndex 0], .startOfValue, 0⟩, 1),
              (⟨[.arrayIndex 1], .startOfValue, 0⟩, 3), (locEnd, 5)]⟩

def j3 : JsonCursor :=
  ⟨Cursor.mk (Node.leaf [(locEnd, chunkArr)]) 0 none,
   ScanJsonFromMiddleWithKey chunkArr none⟩

/-- A `JsonCursor` on the last chunk of a one-leaf tree whose scanner has
consumed its whole buffer (no steps left): advancing must cross a chunk
boundary and then hit the end of the tree. -/
def jEnd : JsonCursor :=
  ⟨Cursor.mk (Node.leaf [(locEnd, chunkB)]) 0
     (some (Cursor.mk (Node.internal [(locEnd, Node.leaf [(locEnd, chunkB)])]) 0 none)),
   { jsonBuffer := chunkB.bytes, steps := [], currentPath := locEnd,
     valueOffset := 10 }⟩

/-- A `JsonCursor` whose scanner is not at the start of a value (its current
location is the end of the root value). -/
def jBad : JsonCursor :=
  ⟨Cursor.mk (Node.leaf [(locEnd, chunkFull)]) 0 none,
   { jsonBuffer := chunkFull.bytes, steps := [], currentPath := locEnd,
     valueOffset := 13 }⟩

def chA : Chunk := ⟨[49], []⟩

def chB : Chunk := ⟨[50], []⟩

/-- A two-entry leaf node. -/
def leafAB : Node := Node.leaf [(locA, chA), (locB, chB)]

/-- A cursor on the second entry of a two-entry leaf that is itself the tree
root (a single-chunk document): its parent is `none`. -/
def c10ex : Cursor := Cursor.mk leafAB 1 none

/-- A cursor on the second entry of a two-entry leaf under an internal root
whose entry key is the largest key of the leaf. -/
def cex4 : Cursor :=
  Cursor.mk leafAB 1 (some (Cursor.mk (Node.internal [(locB, leafAB)]) 0 none))

/-- The parent cursor of `cex4ok`, valid at entry 0 of the root. -/
def rootcW : Cursor := Cursor.mk (Node.internal [(locB, leafAB)]) 0 none

/-- The same leaf cursor as `cex4`, named for the safety witness. -/
def cex4ok : Cursor := Cursor.mk leafAB 1 (some rootcW)

/-- A root value with one table name that `GetTableHash` reports absent. -/
def root9 : RootValue := ⟨.ok ["t"], fun _ => .ok none⟩

/-- Cloning a cursor copies its position exactly and shares the node contents:
the clone equals the original as a value. -/
theorem clone_eq : ∀ (c : Cursor), c.clone = c
  | .mk _ _ none => rfl
  | .mk nd idx (some p) => by
    rw [Cursor.clone, clone_eq p]

/-- A node has exactly as many keys as entries. -/
theorem keys_length (nd : Node) : nd.keys.length = nd.count := by
  cases nd with
  | leaf es => simp [Node.keys, Node.count]
  | internal es => simp [Node.keys, Node.count]

/-- A valid cursor has a current key. -/
theorem currentKey_of_valid (c : Cursor) (h : c.Valid = true) :
    ∃ k, c.CurrentKey = some k := by
  have hv := of_decide_eq_true h
  have hlt : c.idx.toNat < c.nd.keys.length := by
    rw [keys_length]
    omega
  refine ⟨c.nd.keys.get ⟨c.idx.toNat, hlt⟩, ?_⟩
  rw [Cursor.CurrentKey, Node.keyAt, if_pos hv.1, List.get?_eq_get hlt]

/-- Once the crossed-boundary flag is set it stays set, whatever the outcome. -/
theorem advanceAux_crossed :
    ∀ (fuel : Nat) (j : JsonCursor),
      (advanceToNextLocationAux fuel j true).1 = true := by
  intro fuel
  induction fuel with
  | zero => intro j; rfl
  | succ n ih =>
    intro j
    rw [advanceToNextLocationAux]
    cases h : j.jsonScanner.AdvanceToNextLocation with
    | some s2 => rfl
    | none =>
      simp only []
      split
      · split
        · rfl
        · exact ih _
      · rfl

/-- C1: the claim states that `NextValue`, called at the start of a value,
advances until the value and everything nested in it has been consumed and
returns the bytes of the whole value.  On the unsplit document `{"a":1,"b":2}`
the translated code performs a single scanner step — the captured `path` is the
start-of-value location, which every later location already exceeds, so the
comparison loop never runs — and returns only the five bytes up to the first
byte of field `a`, while a one-pass scan of the value (the behaviour the claim
and the Go doc comment describe) yields all thirteen bytes. -/
theorem c1_nextValue_stops_before_value_end :
    JsonCursor.NextValue 10 j1 = GoOutcome.ok [123, 34, 97, 34, 58] ∧
    specNextValueOnePass 10 (ScanJsonFromMiddleWithKey chunkFull none) =
      some docBytes ∧
    ([123, 34, 97, 34, 58] : List Nat) ≠ docBytes := by
  decide

/-- C2: the claim states that `NextValue` on a document split across chunks
returns bytes identical to scanning the unsplit document in one pass — the
bytes of the whole value.  On `{"a":1,"b":2}` split at byte offset 3 the
translated code does cross the chunk boundary and concatenate the two buffer
slices, but it stops after the first location step, returning five bytes
instead of the thirteen bytes of the unsplit value. -/
theorem c2_split_extraction_not_byte_identical :
    JsonCursor.NextValue 10 j2 = GoOutcome.ok [123, 34, 97, 34, 58] ∧
    specNextValueOnePass 10 (ScanJsonFromMiddleWithKey chunkFull none) =
      some docBytes ∧
    JsonCursor.NextValue 10 j2 ≠ GoOutcome.ok docBytes := by
  decide

/-- C6: `NextValue` called when the scanner is not at the start of a value
fails with the internal-invariant error and returns no bytes. -/
theorem c6_nextValue_requires_start :
    ∀ (fuel : Nat) (j : JsonCursor), j.jsonScanner.atStartOfValue = false →
      JsonCursor.NextValue fuel j =
        GoOutcome.error
          (GoErr.msg "JSON cursor in unexpected state. This is likely a bug") := by
  intro fuel j h
  rw [JsonCursor.NextValue, h]
  rfl

/-- Witness for C6 at a concrete cursor whose scanner sits at the end of the
root value. -/
theorem c6_nextValue_requires_start_witness :
    JsonCursor.NextValue 3 jBad =
      GoOutcome.error
        (GoErr.msg "JSON cursor in unexpected state. This is likely a bug") :=
  c6_nextValue_requires_start 3 jBad rfl

/-- C7: the claim states that a caller of `NextValue` never receives a partial
value as a success.  On the unsplit document `[1,2]` the translated code
returns only the opening byte `[` with a nil error: a strict prefix of the
value, reported as success. -/
theorem c7_partial_value_returned_as_success :
    JsonCursor.NextValue 10 j3 = GoOutcome.ok [91] ∧
    specNextValueOnePass 10 (ScanJsonFromMiddleWithKey chunkArr none) =
      some arrBytes ∧
    ([91] : List Nat) ≠ arrBytes := by
  decide

/-- C8: computing the predecessor key operates only on a clone — the clone is
an exact copy sharing the immutable node contents, and after `getPreviousKey`
the primary cursor still has its original node, entry index and parent chain. -/
theorem c8_getPreviousKey_frame :
    ∀ (c : Cursor),
      Cursor.clone c = c ∧
      (getPreviousKeyS c).2.nd = c.nd ∧
      (getPreviousKeyS c).2.idx = c.idx ∧
      (getPreviousKeyS c).2.parent = c.parent := by
  intro c
  exact ⟨clone_eq c, rfl, rfl, rfl⟩

/-- C9 counterexample: on a root whose only table name is reported absent by
`GetTableHash`, `mapTableHashes` aborts the process (the translated `panic`),
rather than returning a typed error-kind result as the claim states. -/
theorem c9_counterexample :
    mapTableHashes root9 =
      GoOutcome.panicked
        "GetTableNames returned a table that GetTableHash says isn't there." := by
  rfl

theorem mapTableHashesLoop_panics :
    ∀ (names : List String) (f : String → Except String (Option Nat))
      (acc : List (String × Nat)),
      (∀ n ∈ names, ∀ e, f n ≠ .error e) →
      (∃ n ∈ names, f n = .ok none) →
      mapTableHashesLoop names f acc =
        GoOutcome.panicked
          "GetTableNames returned a table that GetTableHash says isn't there." := by
  intro names
  induction names with
  | nil =>
    intro f acc _ hex
    rcases hex with ⟨n, hn, _⟩
    cases hn
  | cons a rest ih =>
    intro f acc herr hex
    rw [mapTableHashesLoop]
    cases hfa : f a with
    | error e => exact absurd hfa (herr a (List.mem_cons_self a rest) e)
    | ok o =>
      cases o with
      | none => rfl
      | some h =>
        apply ih
        · intro n hn e
          exact herr n (List.mem_cons_of_mem a hn) e
        · rcases hex with ⟨n, hn, hnone⟩
          rcases List.mem_cons.mp hn with hna | hnr
          · rw [hna] at hnone
            rw [hfa] at hnone
            cases hnone
          · exact ⟨n, hnr, hnone⟩

/-- C9 amended: when `GetTableHash` never errors on the listed names but
reports some listed table absent, `mapTableHashes` aborts via the distinct
panic message — preserving the should-never-happen semantics through a process
abort, not through a typed error return. -/
theorem c9_amended_panics :
    ∀ (names : List String) (f : String → Except String (Option Nat)),
      (∀ n ∈ names, ∀ e, f n ≠ .error e) →
      (∃ n ∈ names, f n = .ok none) →
      mapTableHashes ⟨.ok names, f⟩ =
        GoOutcome.panicked
          "GetTableNames returned a table that GetTableHash says isn't there." := by
  intro names f herr hex
  rw [mapTableHashes]
  exact mapTableHashesLoop_panics names f [] herr hex

/-- C3: whenever `AdvanceToLocation` returns without error, the scanner's
current path is no longer less than the target location under the JsonLocation
ordering; the advancing loop, the re-seek of the parent tree cursor on buffer
exhaustion, the fetch of the new leaf, and the scanner reinitialization from
the predecessor key are the body of `JsonCursor.AdvanceToLocation` itself. -/
theorem c3_advanceToLocation_reaches_target :
    ∀ (fuel : Nat) (j : JsonCursor) (path : JsonLocation) (j2 : JsonCursor),
      JsonCursor.AdvanceToLocation fuel j path = GoOutcome.ok j2 →
      ¬ compareJsonLocations j2.jsonScanner.currentPath path < 0 := by
  intro fuel
  induction fuel with
  | zero =>
    intro j path j2 h
    rw [JsonCursor.AdvanceToLocation] at h
    cases h
  | succ n ih =>
    intro j path j2 h
    rw [JsonCursor.AdvanceToLocation] at h
    by_cases hc : compareJsonLocations j.jsonScanner.currentPath path < 0
    · rw [if_pos hc] at h
      repeat' split at h
      all_goals first
        | exact ih _ _ _ h
        | cases h
    · rw [if_neg hc] at h
      cases h
      exact hc

/-- Witness for C3: seeking to the location the cursor already occupies
returns at once, and the current path is not below the target. -/
theorem c3_advanceToLocation_reaches_target_witness :
    ¬ compareJsonLocations j1.jsonScanner.currentPath documentStart < 0 :=
  c3_advanceToLocation_reaches_target 3 j1 documentStart j1 rfl

/-- C5: when the scanner has exhausted the current chunk, a call to
`AdvanceToNextLocation` reports `crossedBoundary = true`, and when advancing
the tree cursor leaves it invalid — the tree itself is exhausted — the call
surfaces the end-of-tree condition (`io.EOF`) to the caller instead of
reporting success. -/
theorem c5_exhausted_scanner_crosses_boundary :
    ∀ (fuel : Nat) (j : JsonCursor), j.jsonScanner.steps = [] →
      (JsonCursor.AdvanceToNextLocation (fuel + 1) j).1 = true ∧
      (j.cur.advance.Valid = false →
        (JsonCursor.AdvanceToNextLocation (fuel + 1) j).2 =
          GoOutcome.error GoErr.eof) := by
  intro fuel j h
  have hs : j.jsonScanner.AdvanceToNextLocation = none := by
    rw [JsonScanner.AdvanceToNextLocation, h]
  rw [JsonCursor.AdvanceToNextLocation, advanceToNextLocationAux, hs]
  refine ⟨?_, ?_⟩
  · split
    · next heq => exact Option.noConfusion heq
    · split
      · split
        · rfl
        · exact advanceAux_crossed _ _
      · rfl
  · intro hv
    split
    · next heq => exact Option.noConfusion heq
    · have hvne : ¬ (j.cur.advance.Valid = true) := by simp [hv]
      simp [hvne]

/-- Witness for C5 at a cursor on the last chunk of its tree with an exhausted
scanner. -/
theorem c5_exhausted_scanner_crosses_boundary_witness :
    (JsonCursor.AdvanceToNextLocation 5 jEnd).1 = true ∧
    (jEnd.cur.advance.Valid = false →
      (JsonCursor.AdvanceToNextLocation 5 jEnd).2 =
        GoOutcome.error GoErr.eof) :=
  c5_exhausted_scanner_crosses_boundary 4 jEnd rfl

/-- `getPreviousKey` written as a single conditional, by unfolding the
state-passing pair. -/
theorem getPreviousKey_def (cur : Cursor) :
    getPreviousKey cur =
      (if cur.clone.retreat.Valid then
        match cur.clone.retreat.parent with
        | none =>
          .panicked "runtime error: invalid memory address or nil pointer dereference"
        | some p =>
          match p.CurrentKey with
          | none => .panicked "runtime error: index out of range"
          | some k => .ok (some k)
      else .ok none) := rfl

/-- C10: `getPreviousKey` dereferences the retreated clone's parent without a
nil check.  For every cursor whose parent exists and is valid the call cannot
panic, and at the concrete cursor `c10ex` — a tree whose root node is itself
the leaf (a single-chunk document) with the cursor past the first entry — the
retreated clone is still valid, its parent is nil, and the dereference
panics. -/
theorem c10_nil_parent_deref :
    (∀ (c : Cursor) (p : Cursor), c.parent = some p → p.Valid = true →
      (getPreviousKey c).isPanicked = false) ∧
    (getPreviousKey c10ex).isPanicked = true := by
  constructor
  · intro c p hp hv
    obtain ⟨nd, idx, po⟩ := c
    have hpo : po = some p := hp
    subst hpo
    rw [getPreviousKey_def, clone_eq, Cursor.retreat]
    by_cases h1 : idx > 0
    · rw [if_pos h1]
      by_cases h2 : (Cursor.mk nd (idx - 1) (some p)).Valid = true
      · rw [if_pos h2]
        obtain ⟨k, hk⟩ := currentKey_of_valid p hv
        simp only [Cursor.parent, hk, GoOutcome.isPanicked]
      · rw [if_neg h2]
        rfl
    · rw [if_neg h1]
      by_cases h2 : idx = 0
      · rw [if_pos h2]
        by_cases h3 : p.retreat.Valid = true
        · rw [if_pos h3]
          obtain ⟨k, hk⟩ := currentKey_of_valid p.retreat h3
          cases h4 : p.retreat.currentRef with
          | some child =>
            split
            · simp only [Cursor.parent, hk, GoOutcome.isPanicked]
            · rfl
          | none =>
            split
            · simp only [Cursor.parent, hk, GoOutcome.isPanicked]
            · rfl
        · rw [if_neg h3]
          rfl
      · rw [if_neg h2]
        rfl
  · rfl

/-- Witness for the safe direction of C10 at a leaf cursor whose parent exists
and is valid. -/
theorem c10_nil_parent_deref_witness :
    (getPreviousKey cex4ok).isPanicked = false :=
  c10_nil_parent_deref.1 cex4ok rootcW rfl rfl

/-- The last entry of the concatenation of the first `q + 1` leaves is the last
entry of leaf `q`, when leaf `q` is nonempty. -/
theorem flattenTake_getLast {α : Type} :
    ∀ (leaves : List (List α)) (q : Nat), q < leaves.length →
      leaves.getD q [] ≠ [] →
      ((leaves.take (q + 1)).flatten).getLast? = (leaves.getD q []).getLast? := by
  intro leaves
  induction leaves with
  | nil =>
    intro q hq _
    exact absurd hq (by simp)
  | cons l rest ih =>
    intro q hq hne
    cases q with
    | zero => simp
    | succ q2 =>
      have hq2 : q2 < rest.length := by
        simp only [List.length_cons] at hq
        omega
      have hne2 : rest.getD q2 [] ≠ [] := by
        simpa only [List.getD_cons_succ] using hne
      have hih := ih q2 hq2 hne2
      have hflat : (rest.take (q2 + 1)).flatten ≠ [] := by
        intro hnil
        rw [hnil] at hih
        have h5 : (rest.getD q2 []).getLast? = none := hih.symm
        rw [List.getLast?_eq_none_iff] at h5
        exact hne2 h5
      rw [List.take_succ_cons, List.flatten_cons,
        List.getLast?_append_of_ne_nil _ hflat, List.getD_cons_succ]
      exact hih

/-- C4 counterexample: a cursor on the second entry of a two-entry leaf whose
parent entry is keyed by the largest key of the leaf.  The entry immediately
preceding the cursor's position is the leaf's first entry, with key `locA`, but
`getPreviousKey` returns the parent entry's key `locB`. -/
theorem c4_counterexample :
    getPreviousKey cex4 = GoOutcome.ok (some locB) ∧
    (Node.leaf [(locA, chA), (locB, chB)]).keys.get? 0 = some locA ∧
    locB ≠ locA := by
  decide

/-- C4 amended: for every cursor positioned at the *first* entry of its leaf in
a two-level tree whose parent entries are keyed by the largest key of their
leaf, `getPreviousKey` returns the key of the entry immediately preceding the
cursor's position in the tree — the last entry of the flattened first `p`
leaves — and returns `none` (Go `nil`, with no error) exactly when the cursor
is at the first entry of the whole tree (`p = 0`). -/
theorem c4_amended_getPreviousKey :
    ∀ (leaves : List (List (JsonLocation × Chunk))) (p : Nat),
      p < leaves.length →
      (∀ l ∈ leaves, l ≠ []) →
      getPreviousKey (twoLevelCursor leaves p) =
        GoOutcome.ok ((((leaves.take p).flatten).getLast?).map Prod.fst) := by
  intro leaves p hp hne
  cases p with
  | zero =>
    rw [getPreviousKey_def, clone_eq, twoLevelCursor, Cursor.retreat]
    rw [if_neg (by omega : ¬ (0 : Int) > 0), if_pos rfl, Cursor.retreat]
    rw [if_neg (by omega : ¬ ((0 : Nat) : Int) > 0)]
    rfl
  | succ q =>
    have hq : q < leaves.length := by omega
    have hlq : leaves.getD q [] ≠ [] := by
      apply hne
      rw [List.getD_eq_getElem leaves [] hq]
      exact leaves.getElem_mem hq
    have hlen : 0 < (leaves.getD q []).length := List.length_pos.mpr hlq
    have hcast : (((q + 1 : Nat)) : Int) - 1 = (q : Int) := by push_cast; ring
    have hv2 : (Cursor.mk (twoLevelRoot leaves) (q : Int) none).Valid = true := by
      simp only [Cursor.Valid, Cursor.nd, Cursor.idx, twoLevelRoot, Node.count,
        List.length_map, decide_eq_true_eq]
      omega
    have hgq : leaves[q]? = some (leaves.getD q []) := by
      rw [List.getD_eq_getElem leaves [] hq, List.getElem?_eq_getElem hq]
    have href : (Cursor.mk (twoLevelRoot leaves) (q : Int) none).currentRef =
        some (Node.leaf (leaves.getD q [])) := by
      simp only [Cursor.currentRef, Cursor.nd, Cursor.idx, Node.childAt,
        twoLevelRoot]
      rw [if_pos (by omega : (0 : Int) ≤ (q : Int))]
      simp only [Int.toNat_natCast, List.get?_eq_getElem?, List.getElem?_map,
        hgq, Option.map_some']
    have hcur2 : (twoLevelCursor leaves (q + 1)).clone.retreat =
        Cursor.mk (Node.leaf (leaves.getD q []))
          (((leaves.getD q []).length : Int) - 1)
          (some (Cursor.mk (twoLevelRoot leaves) (q : Int) none)) := by
      rw [clone_eq, twoLevelCursor, Cursor.retreat]
      rw [if_neg (by omega : ¬ (0 : Int) > 0), if_pos rfl, Cursor.retreat]
      rw [if_pos (by omega : (((q + 1 : Nat)) : Int) > 0), hcast]
      rw [if_pos hv2, href]
      exact rfl
    have hkey : (Cursor.mk (twoLevelRoot leaves) (q : Int) none).CurrentKey =
        some (lastKeyD (leaves.getD q [])) := by
      simp only [Cursor.CurrentKey, Cursor.nd, Cursor.idx, Node.keyAt,
        twoLevelRoot, Node.keys, List.map_map]
      rw [if_pos (by omega : (0 : Int) ≤ (q : Int))]
      simp only [Int.toNat_natCast, List.get?_eq_getElem?, List.getElem?_map,
        hgq, Option.map_some', Function.comp_apply]
    have hv3 : (Cursor.mk (Node.leaf (leaves.getD q []))
        (((leaves.getD q []).length : Int) - 1)
        (some (Cursor.mk (twoLevelRoot leaves) (q : Int) none))).Valid = true := by
      simp only [Cursor.Valid, Cursor.nd, Cursor.idx, Node.count,
        decide_eq_true_eq]
      omega
    rw [getPreviousKey_def, hcur2, if_pos hv3]
    simp only [Cursor.parent, hkey]
    rw [flattenTake_getLast leaves q hq hlq]
    cases hgl : (leaves.getD q []).getLast? with
    | none =>
      rw [List.getLast?_eq_none_iff] at hgl
      exact absurd hgl hlq
    | some e =>
      simp only [lastKeyD, hgl]
      rfl

/-- Witness for the amended C4 on a concrete two-leaf tree, at the first entry
of the second leaf. -/
theorem c4_amended_getPreviousKey_witness :
    getPreviousKey (twoLevelCursor [[(locA, chA)], [(locB, chB)]] 1) =
      GoOutcome.ok
        (((([[(locA, chA)], [(locB, chB)]].take 1).flatten).getLast?).map
          Prod.fst) :=
  c4_amended_getPreviousKey [[(locA, chA)], [(locB, chB)]] 1 (by decide)
    (by decide)

/-- Witness for the amended C9 at the concrete root value. -/
theorem c9_amended_panics_witness :
    mapTableHashes ⟨.ok ["t"], fun _ => .ok none⟩ =
      GoOutcome.panicked
        "GetTableNames returned a table that GetTableHash says isn't there." :=
  c9_amended_panics ["t"] (fun _ => .ok none)
    (by intro n _ e h; cases h) ⟨"t", by simp, rfl⟩

end DoltTree
